import Mathlib

/-!
Verification of the filter syntax-fragment engine.

Shallow embedding of `src/model/filters/syntax-parts.ts` (the five syntax
part classes and their helpers) and of the sequential composition functions
`parseFilter` / `tryParseFilter` from the filter-definition module.

Conventions of the embedding:
- JS strings are `List Char`; `value.charCodeAt(i)` is `Char.toNat`;
  `s.toLowerCase()` applied character-wise is `Char.toLower` (the configured
  keywords are all ASCII, where the two coincide).
- `undefined` results are `Option.none`; thrown errors are `Except.error`.
- `parseInt(s, 10)` on the digit-run slices produced here is `jsParseInt`,
  with `none` standing for `NaN` (reached only on an empty slice).
-/

/-- `'partial' | 'full'` from the `SyntaxMatch` type. `part` is `'partial'`. -/
inductive MatchType where
  | part : MatchType
  | full : MatchType
  deriving DecidableEq, Repr

/-- The `SyntaxMatch` record: match type plus consumed character count. -/
structure SyntaxMatch where
  type : MatchType
  consumed : Nat
  deriving DecidableEq, Repr

/-- The `Suggestion` record. `template?: true` is modelled as a `Bool` that
is `false` when the field is absent. -/
structure Suggestion where
  showAs : List Char
  value : List Char
  template : Bool
  deriving DecidableEq, Repr

/-- Abbreviation: the character list of a string literal. -/
def cl (s : String) : List Char := s.toList

/-- `CharRange = readonly [number, number]`. -/
abbrev CharRange := Nat × Nat

/-- `charRange(charA, charB?)` from syntax-parts.ts. -/
def charRange (charA : Char) (charB : Option Char) : CharRange :=
  match charB with
  | some b => (charA.toNat, b.toNat)
  | none => (charA.toNat, charA.toNat)

/-- `matchesRange(charCode, range)`. -/
def matchesRange (charCode : Nat) (range : CharRange) : Bool :=
  decide (range.1 ≤ charCode) && decide (charCode ≤ range.2)

/-- `NUMBER_CHARS = [48, 57]` — ASCII codes for 0-9. -/
def NUMBER_CHARS : CharRange := (48, 57)

/-- The character-level predicate used by `getStringAt`'s scanning loop:
the character code matches at least one allowed range. -/
def allowedChar (allowedCharRanges : List CharRange) (c : Char) : Bool :=
  allowedCharRanges.any (fun r => matchesRange c.toNat r)

/-- `getStringAt(value, index, allowedCharRanges)`: scan from `index` while
characters are allowed. A non-empty run is returned as a match; an empty run
exactly at the end of the string is the empty partial match `""`; an empty
run before a remaining (disallowed) character is `undefined`. -/
def getStringAt (value : List Char) (index : Nat) (allowedCharRanges : List CharRange) :
    Option (List Char) :=
  let run := (value.drop index).takeWhile (allowedChar allowedCharRanges)
  if run.isEmpty = false then some run
  else if index = value.length then some []
  else none

/-- `getNumberAt(value, index)` = `getStringAt(value, index, [NUMBER_CHARS])`. -/
def getNumberAt (value : List Char) (index : Nat) : Option (List Char) :=
  getStringAt value index [NUMBER_CHARS]

/-- The char-by-char comparison loop of `FixedStringSyntax.match`:
`expected` is the lower-cased matcher; each input character is lower-cased
before comparison. Returns the number of compared characters (stopping at
the end of either string), or `none` on the first mismatch. -/
def compareChars : List Char → List Char → Option Nat
  | [], _ => some 0
  | _ :: _, [] => some 0
  | e :: es, v :: vs =>
    if e = v.toLower then (compareChars es vs).map (· + 1) else none

/-- `FixedStringSyntax.match(value, index)`. -/
def fixedStringMatch (matcher : List Char) (value : List Char) (index : Nat) :
    Option SyntaxMatch :=
  match compareChars (matcher.map Char.toLower) (value.drop index) with
  | none => none
  | some consumedChars =>
    some { type := if consumedChars = matcher.length then MatchType.full else MatchType.part,
           consumed := consumedChars }

/-- `StringSyntax.match(value, index)`, with the `allowEmpty` option and the
allowed char ranges (defaulted by the constructor to `[[0, 255]]`) passed
explicitly. -/
def stringSyntaxMatch (allowEmpty : Bool) (ranges : List CharRange)
    (value : List Char) (index : Nat) : Option SyntaxMatch :=
  match getStringAt value index ranges with
  | none => none
  | some s =>
    some { type := if decide (0 < s.length) || allowEmpty then MatchType.full else MatchType.part,
           consumed := s.length }

/-- `FixedLengthNumberSyntax.match(value, index)`. -/
def fixedLengthNumberMatch (requiredLength : Nat) (value : List Char) (index : Nat) :
    Option SyntaxMatch :=
  match getNumberAt value index with
  | none => none
  | some s =>
    if s.length = requiredLength then some { type := MatchType.full, consumed := s.length }
    else if s.length < requiredLength then some { type := MatchType.part, consumed := s.length }
    else none

/-- `m.type == 'full'` as a Boolean on `MatchType`. -/
def MatchType.isFullB : MatchType → Bool
  | MatchType.full => true
  | MatchType.part => false

/-- `m.type == 'partial'` as a Boolean on `MatchType`. -/
def MatchType.isPartB : MatchType → Bool
  | MatchType.full => false
  | MatchType.part => true

/-- The accumulator loop of lodash `_.maxBy(l, m => m.consumed)`: keeps the
first element whose key is strictly greatest so far. -/
def maxByFold (best : SyntaxMatch) : List SyntaxMatch → SyntaxMatch
  | [] => best
  | x :: xs => maxByFold (if best.consumed < x.consumed then x else best) xs

/-- `_.maxBy(l, m => m.consumed)`: `undefined` on `[]`, otherwise the first
element with the greatest `consumed`. -/
def maxByConsumed : List SyntaxMatch → Option SyntaxMatch
  | [] => none
  | x :: xs => some (maxByFold x xs)

/-- `StringOptionsSyntax.match(value, index)`: each option is matched as a
`FixedStringSyntax`; `undefined` results are dropped, the rest partitioned
into full and non-full, and the longest of the preferred group returned. -/
def stringOptionsMatch (options : List (List Char)) (value : List Char) (index : Nat) :
    Option SyntaxMatch :=
  let results := options.filterMap (fun m => fixedStringMatch m value index)
  let fullMatches := results.filter (fun m => MatchType.isFullB m.type)
  let otherMatches := results.filter (fun m => !(MatchType.isFullB m.type))
  let bestMatches := if fullMatches.isEmpty then otherMatches else fullMatches
  maxByConsumed bestMatches

/-- The closed set of syntax part kinds, one constructor per class of
syntax-parts.ts, each carrying the configuration fixed at construction.
(`numberSyntax` wraps a digits-only `StringSyntax` exactly as the class
does; suggestion generators do not participate in match/parse and are
handled separately for `FixedLengthNumberSyntax.getSuggestions`.) -/
inductive SyntaxPart where
  | fixedString (matcher : List Char) : SyntaxPart
  | stringSyntax (templateText : List Char) (allowEmpty : Bool) (ranges : List CharRange) : SyntaxPart
  | numberSyntax (name : List Char) : SyntaxPart
  | fixedLengthNumber (requiredLength : Nat) : SyntaxPart
  | stringOptions (options : List (List Char)) : SyntaxPart

/-- `part.match(value, index)`, dispatching to the class implementations. -/
def matchPart : SyntaxPart → List Char → Nat → Option SyntaxMatch
  | SyntaxPart.fixedString m, value, index => fixedStringMatch m value index
  | SyntaxPart.stringSyntax _ allowEmpty ranges, value, index =>
    stringSyntaxMatch allowEmpty ranges value index
  | SyntaxPart.numberSyntax _, value, index =>
    stringSyntaxMatch false [NUMBER_CHARS] value index
  | SyntaxPart.fixedLengthNumber requiredLength, value, index =>
    fixedLengthNumberMatch requiredLength value index
  | SyntaxPart.stringOptions options, value, index => stringOptionsMatch options value index

/-- `value.slice(index, index + consumed)`. -/
def sliceAt (value : List Char) (index consumed : Nat) : List Char :=
  (value.drop index).take consumed

/-- The two failure modes of the composition code: `getParsedValue`'s
thrown `Error` on a non-full match, and the runtime `TypeError` that the
non-null assertion `part.match(value, index)!.consumed` would produce. -/
inductive ParseError where
  | cantParse : ParseError
  | matchUndefined : ParseError
  deriving DecidableEq, Repr

/-- A parsed fragment value: a string for the string-like parts, a number
for the number parts. `num none` stands for `NaN`. -/
inductive ParsedValue where
  | str (s : List Char) : ParsedValue
  | num (n : Option Nat) : ParsedValue
  deriving DecidableEq, Repr

/-- `parseInt(s, 10)` restricted to the slices that occur here (runs of
ASCII digits, possibly empty): the longest digit prefix as a number, or
`none` (`NaN`) when there is none. -/
def jsParseInt (s : List Char) : Option Nat :=
  let ds := s.takeWhile (fun c => matchesRange c.toNat NUMBER_CHARS)
  if ds.isEmpty then none
  else some (ds.foldl (fun acc c => acc * 10 + (c.toNat - 48)) 0)

/-- `getParsedValue(part, value, index)`: requires a full match at the same
position and returns the matched slice of the input; otherwise throws. -/
def getParsedValue (part : SyntaxPart) (value : List Char) (index : Nat) :
    Except ParseError (List Char) :=
  match matchPart part value index with
  | none => Except.error ParseError.cantParse
  | some m =>
    match m.type with
    | MatchType.part => Except.error ParseError.cantParse
    | MatchType.full => Except.ok (sliceAt value index m.consumed)

/-- What each class's `parse` makes of the fully-matched slice:
`FixedStringSyntax` returns the configured matcher (ignoring input case),
the string parts return the slice itself, the number parts `parseInt` it. -/
def valueOfSlice : SyntaxPart → List Char → ParsedValue
  | SyntaxPart.fixedString m, _ => ParsedValue.str m
  | SyntaxPart.stringSyntax _ _ _, s => ParsedValue.str s
  | SyntaxPart.numberSyntax _, s => ParsedValue.num (jsParseInt s)
  | SyntaxPart.fixedLengthNumber _, s => ParsedValue.num (jsParseInt s)
  | SyntaxPart.stringOptions _, s => ParsedValue.str s

/-- `part.parse(value, index)`, dispatching to the class implementations;
each one is `getParsedValue` followed by the class-specific conversion. -/
def parsePart : SyntaxPart → List Char → Nat → Except ParseError ParsedValue
  | SyntaxPart.fixedString m, value, index =>
    (getParsedValue (SyntaxPart.fixedString m) value index).map
      (fun _ => ParsedValue.str m)
  | SyntaxPart.stringSyntax t ae rs, value, index =>
    (getParsedValue (SyntaxPart.stringSyntax t ae rs) value index).map ParsedValue.str
  | SyntaxPart.numberSyntax n, value, index =>
    (getParsedValue (SyntaxPart.numberSyntax n) value index).map
      (fun s => ParsedValue.num (jsParseInt s))
  | SyntaxPart.fixedLengthNumber len, value, index =>
    (getParsedValue (SyntaxPart.fixedLengthNumber len) value index).map
      (fun s => ParsedValue.num (jsParseInt s))
  | SyntaxPart.stringOptions os, value, index =>
    (getParsedValue (SyntaxPart.stringOptions os) value index).map ParsedValue.str

/-- The loop of `parseFilter`, made explicit in the cursor `index`; also
returns the final cursor so that consumption can be observed. For each part
in order: `parts.push(part.parse(value, index))`, then
`index += part.match(value, index)!.consumed`. -/
def parseFilterFrom : List SyntaxPart → List Char → Nat →
    Except ParseError (List ParsedValue × Nat)
  | [], _, index => Except.ok ([], index)
  | p :: ps, value, index =>
    match parsePart p value index with
    | Except.error e => Except.error e
    | Except.ok v =>
      match matchPart p value index with
      | none => Except.error ParseError.matchUndefined
      | some m =>
        match parseFilterFrom ps value (index + m.consumed) with
        | Except.error e => Except.error e
        | Except.ok (vs, finalIndex) => Except.ok (v :: vs, finalIndex)

/-- `parseFilter(filterClass, value)`: the ordered parsed values of every
syntax part, or the first thrown error. -/
def parseFilter (parts : List SyntaxPart) (value : List Char) :
    Except ParseError (List ParsedValue) :=
  (parseFilterFrom parts value 0).map Prod.fst

/-- The loop of `tryParseFilter`: match first, stop (returning what was
collected) as soon as the match is not full, otherwise parse and advance. -/
def tryParseFrom : List SyntaxPart → List Char → Nat → Except ParseError (List ParsedValue)
  | [], _, _ => Except.ok []
  | p :: ps, value, index =>
    match matchPart p value index with
    | none => Except.ok []
    | some m =>
      match m.type with
      | MatchType.part => Except.ok []
      | MatchType.full =>
        match parsePart p value index with
        | Except.error e => Except.error e
        | Except.ok v =>
          match tryParseFrom ps value (index + m.consumed) with
          | Except.error e => Except.error e
          | Except.ok vs => Except.ok (v :: vs)

/-- `tryParseFilter(filterClass, value)`. -/
def tryParseFilter (parts : List SyntaxPart) (value : List Char) :
    Except ParseError (List ParsedValue) :=
  tryParseFrom parts value 0

/-- `StatusFilter.filterSyntax` (the suggestion generator, which plays no
role in match/parse, omitted): keyword, numeric operator, 3-digit number. -/
def statusFilterSyntax : List SyntaxPart :=
  [SyntaxPart.fixedString (cl "status"),
   SyntaxPart.stringOptions [cl "=", cl "!=", cl ">=", cl ">", cl "<=", cl "<"],
   SyntaxPart.fixedLengthNumber 3]

/-- The opening curly brace character of a template `showAs`. -/
def lcurly : Char := Char.ofNat 123

/-- The closing curly brace character of a template `showAs`. -/
def rcurly : Char := Char.ofNat 125

/-- The decimal digits of `n`, for the `{N-digit number}` interpolation. -/
def natToDigits (n : Nat) : List Char := Nat.toDigits 10 n

/-- Is this character an ASCII digit (the `NUMBER_CHARS` range)? -/
def isDigitChar (c : Char) : Bool := matchesRange c.toNat NUMBER_CHARS

/-- The `suggestions` list computed at the top of
`FixedLengthNumberSyntax.getSuggestions`: generator results filtered to
those that extend the already-typed digits, have exactly the required
length, and are all digits. The generator argument is
`fun v i => suggestionGenerator(v, i, context)` when both a generator and a
(truthy) context are present, `none` otherwise (either way the source
computes `[]` when it is absent). -/
def fixedLengthNumberSuggestionsFiltered (requiredLength : Nat)
    (suggestionGenerator : Option (List Char → Nat → List (List Char)))
    (value : List Char) (index : Nat) : List Suggestion :=
  match suggestionGenerator with
  | none => []
  | some gen =>
    let matchingNumber := getNumberAt value index
    ((gen value index).filter (fun s =>
        (match matchingNumber with
         | none => true
         | some [] => true
         | some mn => mn.isPrefixOf s) &&
        (s.length == requiredLength) &&
        s.all isDigitChar)).map
      (fun s => { showAs := s, value := s, template := false })

/-- The `{N-digit number}` template suggestion. -/
def fixedLengthNumberTemplate (requiredLength : Nat) : Suggestion :=
  { showAs := lcurly :: (natToDigits requiredLength ++ cl "-digit number" ++ [rcurly]),
    value := [],
    template := true }

/-- `FixedLengthNumberSyntax.getSuggestions(value, index, context?)`:
a template when nothing is typed yet (`matchingNumber` falsy — `undefined`
or the empty string), the filtered generator suggestions when any survive,
and otherwise the typed digits extended to the required length with `"0"`s. -/
def fixedLengthNumberGetSuggestions (requiredLength : Nat)
    (suggestionGenerator : Option (List Char → Nat → List (List Char)))
    (value : List Char) (index : Nat) : List Suggestion :=
  let suggestions :=
    fixedLengthNumberSuggestionsFiltered requiredLength suggestionGenerator value index
  match getNumberAt value index with
  | none => fixedLengthNumberTemplate requiredLength :: suggestions
  | some [] => fixedLengthNumberTemplate requiredLength :: suggestions
  | some (c :: rest) =>
    if suggestions.isEmpty = false then suggestions
    else
      let matchingNumber := c :: rest
      let extendedNumber :=
        matchingNumber ++ List.replicate (requiredLength - matchingNumber.length) '0'
      [{ showAs := extendedNumber, value := extendedNumber, template := false }]

/-- `Except.isOk`, for stating when the composition succeeds. -/
def exceptIsOk {α : Type} : Except ParseError α → Bool
  | Except.ok _ => true
  | Except.error _ => false

/-- Specification-side predicate: every part of the definition, taken in
order from the cursor, has a full match (each one advancing the cursor by
its consumed count). -/
def allFullFrom : List SyntaxPart → List Char → Nat → Bool
  | [], _, _ => true
  | p :: ps, value, index =>
    match matchPart p value index with
    | some ⟨MatchType.full, c⟩ => allFullFrom ps value (index + c)
    | _ => false

/-- Specification-side total description of the best-effort prefix parse:
walk the parts in order, stop at the first one whose match is not full, and
collect the parsed value of each full-matching part. -/
def tryParseFilterSpec : List SyntaxPart → List Char → Nat → List ParsedValue
  | [], _, _ => []
  | p :: ps, value, index =>
    match matchPart p value index with
    | some ⟨MatchType.full, c⟩ =>
      valueOfSlice p (sliceAt value index c) :: tryParseFilterSpec ps value (index + c)
    | _ => []

/-- Specification-side description (from the claim's words) of the
surviving result set of `StringOptionsSyntax.match`: drop the absent
results; if at least one result is full keep exactly the full ones,
otherwise keep the partial ones. -/
def survivingMatches (options : List (List Char)) (value : List Char) (index : Nat) :
    List SyntaxMatch :=
  let results := options.filterMap (fun m => fixedStringMatch m value index)
  if results.any (fun m => MatchType.isFullB m.type)
  then results.filter (fun m => MatchType.isFullB m.type)
  else results.filter (fun m => MatchType.isPartB m.type)

/-- A `StringOptionsSyntax` configuration is only meaningful with at least
one option; the other part kinds are unconstrained. -/
def wellFormedPart : SyntaxPart → Prop
  | SyntaxPart.stringOptions options => options ≠ []
  | _ => True

/-- Is the optional match result a full match? -/
def isFullMatchB : Option SyntaxMatch → Bool
  | some m => MatchType.isFullB m.type
  | none => false

example : fixedLengthNumberGetSuggestions 3 none (cl "40") 0 =
    [{ showAs := cl "400", value := cl "400", template := false }] := by rfl
example : fixedLengthNumberGetSuggestions 3 none (cl "") 0 =
    [{ showAs := lcurly :: (cl "3-digit number" ++ [rcurly]), value := [], template := true }] := by
  rfl
example : fixedStringMatch (cl "status") (cl "status=404") 0 = some ⟨MatchType.full, 6⟩ := by rfl

theorem compareChars_nil_right (es : List Char) : compareChars es [] = some 0 := by
  cases es <;> rfl

theorem compareChars_full_iff (es : List Char) : ∀ (vs : List Char),
    (∃ n, compareChars es vs = some n ∧ n = es.length) ↔
      (vs.take es.length).map Char.toLower = es := by
  induction es with
  | nil => intro vs; simp [compareChars]
  | cons e es ih =>
    intro vs
    cases vs with
    | nil => simp [compareChars]
    | cons v vs =>
      simp only [compareChars, List.take_succ_cons, List.map_cons, List.length_cons]
      by_cases h : e = v.toLower
      · simp only [if_pos h]
        constructor
        · rintro ⟨n, hn, rfl⟩
          rcases Option.map_eq_some'.mp hn with ⟨m, hm, hmn⟩
          have hm' : m = es.length := by omega
          have := (ih vs).mp ⟨m, hm, hm'⟩
          rw [this, h]
        · intro hEq
          have h1 : v.toLower = e := (List.cons.injEq _ _ _ _ ▸ hEq).1
          have h2 : (vs.take es.length).map Char.toLower = es :=
            (List.cons.injEq _ _ _ _ ▸ hEq).2
          rcases (ih vs).mpr h2 with ⟨m, hm, hm'⟩
          exact ⟨m + 1, by rw [hm]; rfl, by omega⟩
      · simp only [if_neg h]
        constructor
        · rintro ⟨n, hn, _⟩; cases hn
        · intro hEq
          exact absurd ((List.cons.injEq _ _ _ _ ▸ hEq).1.symm) h

theorem compareChars_none_iff (es : List Char) : ∀ (vs : List Char),
    compareChars es vs = none ↔
      ∃ p ∈ es.zip (vs.map Char.toLower), p.1 ≠ p.2 := by
  induction es with
  | nil => intro vs; simp [compareChars]
  | cons e es ih =>
    intro vs
    cases vs with
    | nil => simp [compareChars]
    | cons v vs =>
      simp only [compareChars, List.map_cons, List.zip_cons_cons]
      by_cases h : e = v.toLower
      · simp only [if_pos h, Option.map_eq_none', ih vs, List.mem_cons]
        constructor
        · rintro ⟨p, hp, hne⟩; exact ⟨p, Or.inr hp, hne⟩
        · rintro ⟨p, hp | hp, hne⟩
          · exact absurd (hp ▸ h) hne
          · exact ⟨p, hp, hne⟩
      · simp only [if_neg h, List.mem_cons]
        constructor
        · intro _; exact ⟨(e, v.toLower), Or.inl rfl, h⟩
        · intro _; trivial

theorem maxByFold_mem (l : List SyntaxMatch) : ∀ (best : SyntaxMatch),
    maxByFold best l = best ∨ maxByFold best l ∈ l := by
  induction l with
  | nil => intro best; exact Or.inl rfl
  | cons x xs ih =>
    intro best
    simp only [maxByFold]
    rcases ih (if best.consumed < x.consumed then x else best) with h | h
    · rw [h]
      by_cases hc : best.consumed < x.consumed
      · simp only [if_pos hc]; exact Or.inr (List.mem_cons_self _ _)
      · simp only [if_neg hc]; exact Or.inl trivial
    · exact Or.inr (List.mem_cons_of_mem _ h)

theorem maxByFold_ge (l : List SyntaxMatch) : ∀ (best : SyntaxMatch),
    best.consumed ≤ (maxByFold best l).consumed ∧
      ∀ x ∈ l, x.consumed ≤ (maxByFold best l).consumed := by
  induction l with
  | nil =>
    intro best
    exact ⟨Nat.le_refl _, by intro x hx; cases hx⟩
  | cons y ys ih =>
    intro best
    simp only [maxByFold]
    have ihb := ih (if best.consumed < y.consumed then y else best)
    constructor
    · refine Nat.le_trans ?_ ihb.1
      by_cases hc : best.consumed < y.consumed
      · simp only [if_pos hc]; exact Nat.le_of_lt hc
      · simp only [if_neg hc]; exact Nat.le_refl _
    · intro x hx
      rcases List.mem_cons.mp hx with rfl | hx'
      · refine Nat.le_trans ?_ ihb.1
        by_cases hc : best.consumed < x.consumed
        · simp only [if_pos hc]; exact Nat.le_refl _
        · simp only [if_neg hc]; exact Nat.le_of_not_lt hc
      · exact ihb.2 x hx'

theorem maxByConsumed_none_iff (l : List SyntaxMatch) :
    maxByConsumed l = none ↔ l = [] := by
  cases l <;> simp [maxByConsumed]

theorem maxByConsumed_some (l : List SyntaxMatch) (m : SyntaxMatch)
    (h : maxByConsumed l = some m) :
    m ∈ l ∧ ∀ x ∈ l, x.consumed ≤ m.consumed := by
  cases l with
  | nil => cases h
  | cons x xs =>
    have hm : m = maxByFold x xs := by
      simpa [maxByConsumed] using h.symm
    subst hm
    constructor
    · rcases maxByFold_mem xs x with h' | h'
      · rw [h']; exact List.mem_cons_self _ _
      · exact List.mem_cons_of_mem _ h'
    · intro z hz
      rcases List.mem_cons.mp hz with rfl | hz'
      · exact (maxByFold_ge xs z).1
      · exact (maxByFold_ge xs x).2 z hz'

theorem not_isFullB_eq_isPartB (t : MatchType) :
    (!(MatchType.isFullB t)) = MatchType.isPartB t := by
  cases t <;> rfl

theorem filter_nil_iff_any_false (p : SyntaxMatch → Bool) (l : List SyntaxMatch) :
    l.filter p = [] ↔ l.any p = false := by
  constructor
  · intro h
    rw [Bool.eq_false_iff]
    intro hany
    rcases List.any_eq_true.mp hany with ⟨a, ha, hpa⟩
    have : a ∈ l.filter p := List.mem_filter.mpr ⟨ha, hpa⟩
    rw [h] at this; cases this
  · intro h
    apply List.filter_eq_nil_iff.mpr
    intro a ha hpa
    have : l.any p = true := List.any_eq_true.mpr ⟨a, ha, hpa⟩
    rw [h] at this; cases this

/-- The source's partition-and-prefer-full pipeline computes exactly the
claim-side surviving set, so the whole match is its `maxBy`. -/
theorem stringOptionsMatch_eq_maxBy (options : List (List Char)) (value : List Char)
    (index : Nat) :
    stringOptionsMatch options value index =
      maxByConsumed (survivingMatches options value index) := by
  have hfun : (fun (m : SyntaxMatch) => !(MatchType.isFullB m.type)) =
      (fun (m : SyntaxMatch) => MatchType.isPartB m.type) := by
    funext m; exact not_isFullB_eq_isPartB m.type
  simp only [stringOptionsMatch, survivingMatches, hfun]
  set results := options.filterMap (fun m => fixedStringMatch m value index) with hres
  by_cases h : results.filter (fun m => MatchType.isFullB m.type) = []
  · rw [h, (filter_nil_iff_any_false _ _).mp h]
    simp
  · have hany : results.any (fun m => MatchType.isFullB m.type) = true := by
      rcases List.exists_mem_of_ne_nil _ h with ⟨a, ha⟩
      rcases List.mem_filter.mp ha with ⟨ha1, ha2⟩
      exact List.any_eq_true.mpr ⟨a, ha1, ha2⟩
    have hne : (results.filter (fun m => MatchType.isFullB m.type)).isEmpty = false := by
      cases hl : results.filter (fun m => MatchType.isFullB m.type) with
      | nil => exact absurd hl h
      | cons b bs => rfl
    rw [hany, hne]
    simp

theorem parsePart_full (p : SyntaxPart) (value : List Char) (index c : Nat)
    (h : matchPart p value index = some ⟨MatchType.full, c⟩) :
    parsePart p value index = Except.ok (valueOfSlice p (sliceAt value index c)) := by
  cases p <;> simp [parsePart, getParsedValue, h, valueOfSlice, Except.map]

theorem parsePart_error_of_none (p : SyntaxPart) (value : List Char) (index : Nat)
    (h : matchPart p value index = none) :
    parsePart p value index = Except.error ParseError.cantParse := by
  cases p <;> simp [parsePart, getParsedValue, h, Except.map]

theorem parsePart_error_of_part (p : SyntaxPart) (value : List Char) (index c : Nat)
    (h : matchPart p value index = some ⟨MatchType.part, c⟩) :
    parsePart p value index = Except.error ParseError.cantParse := by
  cases p <;> simp [parsePart, getParsedValue, h, Except.map]

theorem parsePart_ok (p : SyntaxPart) (value : List Char) (index : Nat) (v : ParsedValue)
    (h : parsePart p value index = Except.ok v) :
    ∃ c, matchPart p value index = some ⟨MatchType.full, c⟩ ∧
      v = valueOfSlice p (sliceAt value index c) := by
  cases hm : matchPart p value index with
  | none => rw [parsePart_error_of_none p value index hm] at h; cases h
  | some m =>
    obtain ⟨mt, c⟩ := m
    cases mt with
    | part => rw [parsePart_error_of_part p value index c hm] at h; cases h
    | full =>
      rw [parsePart_full p value index c hm] at h
      refine ⟨c, rfl, ?_⟩
      injection h with h1
      exact h1.symm

theorem getStringAt_end (value : List Char) (ranges : List CharRange) :
    getStringAt value value.length ranges = some [] := by
  simp [getStringAt, List.drop_length]

theorem fixedStringMatch_end (matcher value : List Char) :
    fixedStringMatch matcher value value.length =
      some { type := if 0 = matcher.length then MatchType.full else MatchType.part,
             consumed := 0 } := by
  simp [fixedStringMatch, List.drop_length, compareChars_nil_right]

theorem stringOptionsMatch_end_isSome (options : List (List Char)) (value : List Char)
    (h : options ≠ []) :
    (stringOptionsMatch options value value.length).isSome = true := by
  cases options with
  | nil => exact absurd rfl h
  | cons o os =>
    simp only [stringOptionsMatch]
    have hcons : (o :: os).filterMap (fun m => fixedStringMatch m value value.length) =
        ({ type := if 0 = o.length then MatchType.full else MatchType.part, consumed := 0 } :
          SyntaxMatch) ::
          os.filterMap (fun m => fixedStringMatch m value value.length) := by
      rw [List.filterMap_cons, fixedStringMatch_end]
    rw [hcons]
    set rest := os.filterMap (fun m => fixedStringMatch m value value.length) with hrest
    set m0 : SyntaxMatch :=
      { type := if 0 = o.length then MatchType.full else MatchType.part, consumed := 0 } with hm0
    by_cases hfull : (m0 :: rest).filter (fun m => MatchType.isFullB m.type) = []
    · rw [hfull]
      simp only [List.isEmpty_nil, if_true]
      have hall : ∀ m ∈ m0 :: rest, (MatchType.isFullB m.type) = false := by
        intro m hm
        by_contra hne
        have : m ∈ (m0 :: rest).filter (fun m => MatchType.isFullB m.type) :=
          List.mem_filter.mpr ⟨hm, by revert hne; cases MatchType.isFullB m.type <;> simp⟩
        rw [hfull] at this; cases this
      have : (m0 :: rest).filter (fun m => !(MatchType.isFullB m.type)) = m0 :: rest := by
        apply List.filter_eq_self.mpr
        intro a ha
        rw [hall a ha]; rfl
      rw [this]
      rfl
    · cases hl : (m0 :: rest).filter (fun m => MatchType.isFullB m.type) with
      | nil => exact absurd hl hfull
      | cons b bs => rfl

theorem exceptIsOk_map {α β : Type} (f : α → β) (e : Except ParseError α) :
    exceptIsOk (e.map f) = exceptIsOk e := by
  cases e <;> rfl

/-- The strict parse loop succeeds from a cursor exactly when every part in
sequence matches fully from there. -/
theorem parseFilterFrom_isOk (parts : List SyntaxPart) : ∀ (value : List Char) (index : Nat),
    exceptIsOk (parseFilterFrom parts value index) = allFullFrom parts value index := by
  induction parts with
  | nil => intro value index; rfl
  | cons p ps ih =>
    intro value index
    cases hm : matchPart p value index with
    | none =>
      rw [show parseFilterFrom (p :: ps) value index =
          (match parsePart p value index with
           | Except.error e => Except.error e
           | Except.ok v =>
             match matchPart p value index with
             | none => Except.error ParseError.matchUndefined
             | some m =>
               match parseFilterFrom ps value (index + m.consumed) with
               | Except.error e => Except.error e
               | Except.ok (vs, finalIndex) => Except.ok (v :: vs, finalIndex)) from rfl]
      rw [parsePart_error_of_none p value index hm]
      simp [allFullFrom, hm, exceptIsOk]
    | some m =>
      obtain ⟨mt, c⟩ := m
      cases mt with
      | part =>
        rw [show parseFilterFrom (p :: ps) value index =
            (match parsePart p value index with
             | Except.error e => Except.error e
             | Except.ok v =>
               match matchPart p value index with
               | none => Except.error ParseError.matchUndefined
               | some m =>
                 match parseFilterFrom ps value (index + m.consumed) with
                 | Except.error e => Except.error e
                 | Except.ok (vs, finalIndex) => Except.ok (v :: vs, finalIndex)) from rfl]
        rw [parsePart_error_of_part p value index c hm]
        simp [allFullFrom, hm, exceptIsOk]
      | full =>
        rw [show parseFilterFrom (p :: ps) value index =
            (match parsePart p value index with
             | Except.error e => Except.error e
             | Except.ok v =>
               match matchPart p value index with
               | none => Except.error ParseError.matchUndefined
               | some m =>
                 match parseFilterFrom ps value (index + m.consumed) with
                 | Except.error e => Except.error e
                 | Except.ok (vs, finalIndex) => Except.ok (v :: vs, finalIndex)) from rfl]
        rw [parsePart_full p value index c hm, hm]
        simp only [allFullFrom, hm]
        cases hr : parseFilterFrom ps value (index + c) with
        | error e => rw [← ih value (index + c), hr]
        | ok vsfi =>
          obtain ⟨vs, fi⟩ := vsfi
          rw [← ih value (index + c), hr]
          rfl

/-- The best-effort loop never fails and computes the specification-side
value list. -/
theorem tryParseFrom_spec (parts : List SyntaxPart) : ∀ (value : List Char) (index : Nat),
    tryParseFrom parts value index = Except.ok (tryParseFilterSpec parts value index) := by
  induction parts with
  | nil => intro value index; rfl
  | cons p ps ih =>
    intro value index
    cases hm : matchPart p value index with
    | none => simp [tryParseFrom, tryParseFilterSpec, hm]
    | some m =>
      obtain ⟨mt, c⟩ := m
      cases mt with
      | part => simp [tryParseFrom, tryParseFilterSpec, hm]
      | full =>
        simp only [tryParseFrom, tryParseFilterSpec, hm]
        rw [parsePart_full p value index c hm, ih value (index + c)]

/-- When the strict loop succeeds, the best-effort loop returns exactly the
same values. -/
theorem parseFrom_agree (parts : List SyntaxPart) :
    ∀ (value : List Char) (index : Nat) (vs : List ParsedValue) (finalIndex : Nat),
    parseFilterFrom parts value index = Except.ok (vs, finalIndex) →
    tryParseFrom parts value index = Except.ok vs := by
  induction parts with
  | nil =>
    intro value index vs finalIndex h
    injection h with h1
    rw [show vs = ([] : List ParsedValue) from congrArg Prod.fst h1.symm]
    rfl
  | cons p ps ih =>
    intro value index vs finalIndex h
    cases hp : parsePart p value index with
    | error e =>
      simp only [parseFilterFrom, hp] at h
      cases h
    | ok v =>
      rcases parsePart_ok p value index v hp with ⟨c, hm, hv⟩
      cases hr : parseFilterFrom ps value (index + c) with
      | error e =>
        simp only [parseFilterFrom, hp, hm, hr] at h
        cases h
      | ok vsfi =>
        obtain ⟨vs', fi'⟩ := vsfi
        simp only [parseFilterFrom, hp, hm, hr] at h
        have hvs : vs = v :: vs' := by
          injection h with h1
          exact congrArg Prod.fst h1.symm
        simp only [tryParseFrom, hm, hp]
        rw [ih value (index + c) vs' fi' hr, hvs]

theorem takeWhile_take_length (p : Char → Bool) (l : List Char) :
    l.take (l.takeWhile p).length = l.takeWhile p := by
  induction l with
  | nil => rfl
  | cons a l ih =>
    by_cases h : p a
    · simp [List.takeWhile_cons, h, ih]
    · simp [List.takeWhile_cons, h]

theorem takeWhile_all_sat (p : Char → Bool) (l : List Char) :
    (l.takeWhile p).all p = true := by
  induction l with
  | nil => rfl
  | cons a l ih =>
    by_cases h : p a
    · simp [List.takeWhile_cons, h, ih]
    · simp [List.takeWhile_cons, h]

theorem fixedStringMatch_full_iff (matcher value : List Char) (index : Nat) :
    isFullMatchB (fixedStringMatch matcher value index) = true ↔
      (∃ n, compareChars (matcher.map Char.toLower) (value.drop index) = some n ∧
        n = matcher.length) := by
  unfold fixedStringMatch isFullMatchB MatchType.isFullB
  cases h : compareChars (matcher.map Char.toLower) (value.drop index) with
  | none => simp
  | some n =>
    by_cases hn : n = matcher.length
    · simp [hn]
    · simp [hn]

theorem fixedStringMatch_none_iff (matcher value : List Char) (index : Nat) :
    fixedStringMatch matcher value index = none ↔
      compareChars (matcher.map Char.toLower) (value.drop index) = none := by
  unfold fixedStringMatch
  cases h : compareChars (matcher.map Char.toLower) (value.drop index) <;> simp

theorem getStringAt_chars (value : List Char) (index : Nat) (ranges : List CharRange)
    (s : List Char) (h : getStringAt value index ranges = some s) :
    (value.drop index).take s.length = s ∧ s.all (allowedChar ranges) = true := by
  simp only [getStringAt] at h
  by_cases hrun : ((value.drop index).takeWhile (allowedChar ranges)).isEmpty = false
  · rw [if_pos hrun] at h
    injection h with h1
    subst h1
    exact ⟨takeWhile_take_length _ _, takeWhile_all_sat _ _⟩
  · rw [if_neg hrun] at h
    by_cases hidx : index = value.length
    · rw [if_pos hidx] at h
      injection h with h1
      subst h1
      exact ⟨rfl, rfl⟩
    · rw [if_neg hidx] at h
      cases h

example : fixedStringMatch (cl "status") (cl "STAT") 0 = some ⟨MatchType.part, 4⟩ := by rfl
example : fixedStringMatch (cl "status") (cl "staX") 0 = none := by rfl
example : stringOptionsMatch [cl "=", cl "!="] (cl "!=") 0 = some ⟨MatchType.full, 2⟩ := by rfl
example : stringOptionsMatch [cl ">", cl ">="] (cl ">=") 0 = some ⟨MatchType.full, 2⟩ := by rfl
example : fixedLengthNumberMatch 3 (cl "40x") 0 = some ⟨MatchType.part, 2⟩ := by rfl
example : fixedLengthNumberMatch 3 (cl "4040") 0 = none := by rfl
example : stringSyntaxMatch false [(97, 122)] (cl "!") 0 = none := by rfl
example : stringSyntaxMatch false [(97, 122)] (cl "ab") 2 = some ⟨MatchType.part, 0⟩ := by rfl
example : parseFilter statusFilterSyntax (cl "status=404") =
    Except.ok [ParsedValue.str (cl "status"), ParsedValue.str (cl "="),
               ParsedValue.num (some 404)] := by rfl
example : tryParseFilter statusFilterSyntax (cl "status=40") =
    Except.ok [ParsedValue.str (cl "status"), ParsedValue.str (cl "=")] := by rfl
example : parseFilterFrom [SyntaxPart.fixedString (cl "a")] (cl "ab") 0 =
    Except.ok ([ParsedValue.str (cl "a")], 1) := by rfl
example : matchPart (SyntaxPart.stringOptions []) [] 0 = none := by rfl

/-- C1, counterexample: the strict full parse does not reject trailing
slack. On the one-fragment definition `[FixedStringSyntax "a"]` and input
`"ab"`, every fragment fully matches and `parseFilter` succeeds, yet the
final cursor is 1 while the input has length 2 — a character remains after
the last fragment's full match and no parse failure is raised. -/
theorem parseFilter_trailing_slack_accepted :
    parseFilter [SyntaxPart.fixedString (cl "a")] (cl "ab") =
      Except.ok [ParsedValue.str (cl "a")] ∧
    parseFilterFrom [SyntaxPart.fixedString (cl "a")] (cl "ab") 0 =
      Except.ok ([ParsedValue.str (cl "a")], 1) ∧
    (cl "ab").length = 2 :=
  ⟨rfl, rfl, rfl⟩

/-- C1, amended: `parseFilter` aborts with a parse failure exactly when
some fragment fails to fully match at its cursor position; when every
fragment fully matches in order it succeeds, even if unconsumed characters
remain after the last fragment (trailing slack is not rejected). -/
theorem parseFilter_ok_iff_all_full (parts : List SyntaxPart) (value : List Char) :
    exceptIsOk (parseFilter parts value) = allFullFrom parts value 0 := by
  unfold parseFilter
  rw [exceptIsOk_map, parseFilterFrom_isOk]

/-- C2: evaluation of `FixedLengthNumberSyntax.match` at the failing input
`N = 3`, value `"40x"`, index 0. The typed digit run `"40"` has length
2 < 3 and ends at position 2, before the end of the 3-character input, yet
the code returns a partial match consuming 2 instead of the hard rejection
the claim (and the `SyntaxPart.match` documentation) call for. -/
theorem fixedLengthNumber_match_midstring_run :
    fixedLengthNumberMatch 3 (cl "40x") 0 = some ⟨MatchType.part, 2⟩ ∧
    (cl "40x").length = 3 :=
  ⟨rfl, rfl⟩

/-- C3: on any filter definition and any input on which the strict full
parse succeeds, the best-effort prefix parse returns exactly the same
parsed values in the same order. -/
theorem tryParse_agrees_with_parse (parts : List SyntaxPart) (value : List Char)
    (vs : List ParsedValue) (h : parseFilter parts value = Except.ok vs) :
    tryParseFilter parts value = Except.ok vs := by
  unfold parseFilter at h
  cases hr : parseFilterFrom parts value 0 with
  | error e => rw [hr] at h; cases h
  | ok p =>
    obtain ⟨vs', fi⟩ := p
    rw [hr] at h
    simp only [Except.map] at h
    have hvs : vs' = vs := by injection h with h1
    subst hvs
    exact parseFrom_agree parts value 0 vs' fi hr

theorem tryParse_agrees_with_parse_witness :
    tryParseFilter statusFilterSyntax (cl "status=404") =
      Except.ok [ParsedValue.str (cl "status"), ParsedValue.str (cl "="),
                 ParsedValue.num (some 404)] :=
  tryParse_agrees_with_parse statusFilterSyntax (cl "status=404")
    [ParsedValue.str (cl "status"), ParsedValue.str (cl "="), ParsedValue.num (some 404)]
    rfl

/-- C4, counterexample: a `StringOptionsSyntax` constructed with an empty
option list returns `undefined` even at the exact end of the input
(`match("", 0)` with `0 = "".length`), so the claim does not hold for
every instance of every fragment kind. -/
theorem stringOptions_empty_absent_at_end :
    matchPart (SyntaxPart.stringOptions []) [] (List.length ([] : List Char)) = none :=
  rfl

/-- C4, amended: for every fragment kind — unconditionally for
`FixedStringSyntax`, `StringSyntax`, `NumberSyntax` and
`FixedLengthNumberSyntax`, and for `StringOptionsSyntax` whenever at least
one option is configured — `match(value, value.length)` at the exact end
of the input returns a match (partial or full), never absent. -/
theorem match_at_end_isSome (p : SyntaxPart) (value : List Char)
    (hwf : wellFormedPart p) :
    (matchPart p value value.length).isSome = true := by
  cases p with
  | fixedString m =>
    simp only [matchPart]
    rw [fixedStringMatch_end]
    rfl
  | stringSyntax t ae rs =>
    simp only [matchPart, stringSyntaxMatch]
    rw [getStringAt_end]
    rfl
  | numberSyntax n =>
    simp only [matchPart, stringSyntaxMatch]
    rw [getStringAt_end]
    rfl
  | fixedLengthNumber len =>
    simp only [matchPart, fixedLengthNumberMatch, getNumberAt]
    rw [getStringAt_end]
    rcases Nat.eq_zero_or_pos len with h | h
    · subst h
      rfl
    · simp [h]
      split <;> rfl
  | stringOptions opts =>
    exact stringOptionsMatch_end_isSome opts value hwf

theorem match_at_end_isSome_witness :
    (matchPart (SyntaxPart.stringOptions [cl "http", cl "https"]) (cl "xy")
      (cl "xy").length).isSome = true :=
  match_at_end_isSome (SyntaxPart.stringOptions [cl "http", cl "https"]) (cl "xy")
    (by simp [wellFormedPart])

/-- C5: `StringOptionsSyntax.match` is characterized by the surviving
result set (absent results discarded; full results preferred when any
exists, otherwise partial results): it is `undefined` exactly when that
set is empty, and otherwise returns a member of the set whose consumed
count is greatest. -/
theorem stringOptions_match_spec (options : List (List Char)) (value : List Char)
    (index : Nat) :
    (stringOptionsMatch options value index = none ↔
      survivingMatches options value index = []) ∧
    (∀ m, stringOptionsMatch options value index = some m →
      m ∈ survivingMatches options value index ∧
      ∀ m2 ∈ survivingMatches options value index, m2.consumed ≤ m.consumed) := by
  constructor
  · rw [stringOptionsMatch_eq_maxBy]
    exact maxByConsumed_none_iff _
  · intro m hm
    rw [stringOptionsMatch_eq_maxBy] at hm
    exact maxByConsumed_some _ m hm

theorem stringOptions_match_spec_witness :
    (SyntaxMatch.mk MatchType.full 2) ∈ survivingMatches [cl "=", cl "!="] (cl "!=") 0 ∧
    ∀ m2 ∈ survivingMatches [cl "=", cl "!="] (cl "!=") 0,
      m2.consumed ≤ (SyntaxMatch.mk MatchType.full 2).consumed :=
  (stringOptions_match_spec [cl "=", cl "!="] (cl "!=") 0).2 ⟨MatchType.full, 2⟩ rfl

/-- C6: `StringSyntax.match` (a) never consumes a character outside the
allowed set, (b) at the exact end of the string consumes zero characters
and is full iff `allowEmpty` (partial otherwise), and (c) hard-rejects
when the character at the index is disallowed with input remaining and
nothing consumed. -/
theorem stringSyntax_match_spec (allowEmpty : Bool) (ranges : List CharRange)
    (value : List Char) (index : Nat) :
    (∀ m, stringSyntaxMatch allowEmpty ranges value index = some m →
      ((value.drop index).take m.consumed).all (allowedChar ranges) = true) ∧
    (index = value.length →
      stringSyntaxMatch allowEmpty ranges value index =
        some ⟨if allowEmpty then MatchType.full else MatchType.part, 0⟩) ∧
    (∀ c rest, value.drop index = c :: rest → allowedChar ranges c = false →
      stringSyntaxMatch allowEmpty ranges value index = none) := by
  refine ⟨?_, ?_, ?_⟩
  · intro m hm
    simp only [stringSyntaxMatch] at hm
    cases hg : getStringAt value index ranges with
    | none => rw [hg] at hm; cases hm
    | some s =>
      rw [hg] at hm
      rcases getStringAt_chars value index ranges s hg with ⟨htake, hall⟩
      have hcons : m.consumed = s.length := by
        injection hm with h1
        rw [← h1]
      rw [hcons, htake]
      exact hall
  · intro h
    subst h
    simp only [stringSyntaxMatch]
    rw [getStringAt_end]
    simp
  · intro c rest hdrop hc
    have hrun : (value.drop index).takeWhile (allowedChar ranges) = [] := by
      rw [hdrop]
      simp [List.takeWhile_cons, hc]
    have hne : ¬(index = value.length) := by
      intro heq
      rw [heq, List.drop_length] at hdrop
      cases hdrop
    simp [stringSyntaxMatch, getStringAt, hrun, hne]

theorem stringSyntax_match_spec_witness :
    stringSyntaxMatch false [(97, 122)] (cl "ab") 2 = some ⟨MatchType.part, 0⟩ ∧
    stringSyntaxMatch false [(97, 122)] (cl "!a") 0 = none :=
  ⟨(stringSyntax_match_spec false [(97, 122)] (cl "ab") 2).2.1 rfl,
   (stringSyntax_match_spec false [(97, 122)] (cl "!a") 0).2.2 '!' (cl "a") rfl rfl⟩

/-- C7: `FixedStringSyntax.match` is full exactly when the input slice of
the keyword's length starting at the index equals the keyword
case-insensitively, and absent exactly when some compared character before
the end of the input differs case-insensitively from the corresponding
keyword character. -/
theorem fixedString_match_characterization (matcher value : List Char) (index : Nat) :
    (isFullMatchB (fixedStringMatch matcher value index) = true ↔
      ((value.drop index).take matcher.length).map Char.toLower =
        matcher.map Char.toLower) ∧
    (fixedStringMatch matcher value index = none ↔
      ∃ p ∈ (matcher.map Char.toLower).zip ((value.drop index).map Char.toLower),
        p.1 ≠ p.2) := by
  constructor
  · rw [fixedStringMatch_full_iff]
    have hiff := compareChars_full_iff (matcher.map Char.toLower) (value.drop index)
    rw [List.length_map] at hiff
    rw [hiff]
  · rw [fixedStringMatch_none_iff]
    exact compareChars_none_iff _ _

/-- C8: the best-effort prefix parse never fails: on every filter
definition and every input it returns (as a success) exactly the ordered
parsed values of the longest prefix of fragments that fully match,
stopping at the first fragment whose match is not full. -/
theorem tryParseFilter_total_spec (parts : List SyntaxPart) (value : List Char) :
    tryParseFilter parts value = Except.ok (tryParseFilterSpec parts value 0) :=
  tryParseFrom_spec parts value 0

/-- C9: when some digits are typed but fewer than the required length, and
the generator contributes no valid candidate (in particular when no
context/generator is given), `FixedLengthNumberSyntax.getSuggestions`
returns exactly one non-template suggestion whose `showAs` and `value` are
the typed digits right-padded with zeros to the required length. -/
theorem fixedLengthNumber_suggestion_zero_pad (requiredLength : Nat)
    (gen : Option (List Char → Nat → List (List Char))) (value : List Char) (index : Nat)
    (c : Char) (rest : List Char)
    (hrun : getNumberAt value index = some (c :: rest))
    (hlt : (c :: rest).length < requiredLength)
    (hgen : fixedLengthNumberSuggestionsFiltered requiredLength gen value index = []) :
    fixedLengthNumberGetSuggestions requiredLength gen value index =
      [{ showAs := (c :: rest) ++ List.replicate (requiredLength - (c :: rest).length) '0',
         value := (c :: rest) ++ List.replicate (requiredLength - (c :: rest).length) '0',
         template := false }] ∧
    ((c :: rest) ++ List.replicate (requiredLength - (c :: rest).length) '0').length =
      requiredLength := by
  constructor
  · simp only [fixedLengthNumberGetSuggestions, hgen, hrun]
    rfl
  · simp only [List.length_append, List.length_replicate]
    omega

theorem fixedLengthNumber_suggestion_zero_pad_witness :
    fixedLengthNumberGetSuggestions 3 none (cl "40") 0 =
      [{ showAs := ('4' :: ['0']) ++ List.replicate (3 - ('4' :: ['0']).length) '0',
         value := ('4' :: ['0']) ++ List.replicate (3 - ('4' :: ['0']).length) '0',
         template := false }] ∧
    (('4' :: ['0']) ++ List.replicate (3 - ('4' :: ['0']).length) '0').length = 3 :=
  fixedLengthNumber_suggestion_zero_pad 3 none (cl "40") 0 '4' ['0'] rfl (by decide) rfl

/-- C10: on a full match, `StringOptionsSyntax.parse` returns the exact
input substring as typed (preserving the user's letter case), while
`FixedStringSyntax.parse` returns the configured-case keyword instead of
the typed text. -/
theorem stringOptions_parse_preserves_case (value : List Char) (index : Nat) :
    (∀ (options : List (List Char)) (m : SyntaxMatch),
      stringOptionsMatch options value index = some m → m.type = MatchType.full →
      parsePart (SyntaxPart.stringOptions options) value index =
        Except.ok (ParsedValue.str (sliceAt value index m.consumed))) ∧
    (∀ (matcher : List Char) (m : SyntaxMatch),
      fixedStringMatch matcher value index = some m → m.type = MatchType.full →
      parsePart (SyntaxPart.fixedString matcher) value index =
        Except.ok (ParsedValue.str matcher)) := by
  constructor
  · intro opts m hm hf
    obtain ⟨mt, c⟩ := m
    cases hf
    exact parsePart_full (SyntaxPart.stringOptions opts) value index c hm
  · intro matcher m hm hf
    obtain ⟨mt, c⟩ := m
    cases hf
    exact parsePart_full (SyntaxPart.fixedString matcher) value index c hm

theorem stringOptions_parse_preserves_case_witness :
    parsePart (SyntaxPart.stringOptions [cl "http", cl "https"]) (cl "HTTP") 0 =
      Except.ok (ParsedValue.str (cl "HTTP")) ∧
    parsePart (SyntaxPart.fixedString (cl "http")) (cl "HTTP") 0 =
      Except.ok (ParsedValue.str (cl "http")) :=
  ⟨(stringOptions_parse_preserves_case (cl "HTTP") 0).1 [cl "http", cl "https"]
      ⟨MatchType.full, 4⟩ rfl rfl,
   (stringOptions_parse_preserves_case (cl "HTTP") 0).2 (cl "http")
      ⟨MatchType.full, 4⟩ rfl rfl⟩
